import Mathlib

/-!
# StagingBoss lineup engine — shallow embedding

This file embeds the lineup-resolution core of the StagingBoss repository
(`src/utils/lineupProcessor.ts`, given as `src/unnamed/part_011`, and the
lineup-store actions of `src/contexts/AppContext.tsx`) and proves the frozen
claims about it.

Modelling conventions:
* JavaScript strings are Lean `String`s; `String.prototype.trim` and
  `split` are re-implemented structurally (`jsTrim`, `jsSplit`) so that every
  definition evaluates inside the kernel.
* Draw ("pill") numbers are `Int`.  Every pill number the program constructs
  is an exact integer (`parseInt` result or `Number.MAX_SAFE_INTEGER`), so
  `Math.floor` is the identity on all reachable values; IEEE-754 rounding of
  integers beyond 2^53 is outside the scope of the claims.
* `Array.prototype.sort` (stable since ES2019) is modelled by a stable
  insertion sort `stableSort`; for the consistent comparators used on the
  pill-number keys the stable-sort result is unique, so any stable sort is a
  faithful model.
* `String.prototype.localeCompare` is modelled as code-point lexicographic
  comparison (the collation of the default locale on ASCII data).
-/

/-- JavaScript `Number.MAX_SAFE_INTEGER`: the sentinel the parser stores in
`pillNumber` when a line carries no (usable) draw number. -/
def MAX_SAFE_INTEGER : Int := 9007199254740991

/-- The `Driver` record (`src/types`) as produced by `parseRawData`. -/
structure Driver where
  carNumber : String
  driverName : String
  pillNumber : Int
  className : String
  classId : String
deriving Repr, DecidableEq

/-- The `RaceClass` record (`src/types`); the optional `description` plays no
role in any claim. -/
structure RaceClass where
  id : String
  name : String
deriving Repr, DecidableEq

/-- The `ProcessedLineup` record (`src/types`). -/
structure ProcessedLineup where
  classId : String
  className : String
  drivers : List Driver
deriving Repr, DecidableEq

/-! ## String utilities (models of the JavaScript built-ins used) -/

/-- Whitespace recognised by `String.prototype.trim` (restricted to the ASCII
whitespace characters, which is all the data the program meets). -/
def isJsSpace (c : Char) : Bool :=
  c = ' ' || c = '\t' || c = '\n' || c = '\r' || c = '\x0b' || c = '\x0c'

/-- Model of `String.prototype.trim`. -/
def jsTrim (s : String) : String :=
  String.mk (((s.data.dropWhile isJsSpace).reverse.dropWhile isJsSpace).reverse)

/-- Split a character list at every occurrence of `sep`, keeping empty pieces —
the semantics of JavaScript `String.prototype.split` with a single-character
separator (e.g. `"a\t\tb".split('\t') = ["a","","b"]`, `"".split(c) = [""]`). -/
def splitOnChar (sep : Char) : List Char → List (List Char)
  | [] => [[]]
  | c :: cs =>
    match splitOnChar sep cs with
    | [] => [[]]
    | piece :: rest =>
      if c = sep then [] :: piece :: rest else (c :: piece) :: rest

/-- Model of `s.split(sep)` for a single-character separator. -/
def jsSplit (s : String) (sep : Char) : List String :=
  (splitOnChar sep s.data).map String.mk

/-- Longest digit prefix of a character list. -/
def leadingDigits : List Char → List Char
  | [] => []
  | c :: cs => if c.isDigit then c :: leadingDigits cs else []

/-- Value of a list of decimal digit characters. -/
def digitsToNat (ds : List Char) : Nat :=
  ds.foldl (fun n c => n * 10 + (c.toNat - 48)) 0

/-- Model of JavaScript `parseInt(s, 10)` on an already-trimmed string:
optional sign followed by the longest digit prefix; `none` models `NaN`
(no leading digit).  `parseInt("12abc") = 12`, `parseInt("abc") = NaN`. -/
def jsParseInt (s : String) : Option Int :=
  match s.data with
  | '-' :: cs =>
    match leadingDigits cs with
    | [] => none
    | ds => some (-(digitsToNat ds : Int))
  | '+' :: cs =>
    match leadingDigits cs with
    | [] => none
    | ds => some ((digitsToNat ds : Int))
  | cs =>
    match leadingDigits cs with
    | [] => none
    | ds => some ((digitsToNat ds : Int))

/-- Model of `parseInt` applied to the car number with every non-digit
deleted (`replace` with the non-digit regex): the comparator first
deletes every non-digit character and parses what remains (the concatenation
of *all* digit runs); the result is `NaN` (`none`) iff `s` has no digit. -/
def carNumVal (s : String) : Option Nat :=
  match s.data.filter Char.isDigit with
  | [] => none
  | ds => some (digitsToNat ds)

/-- Lexicographic code-point comparison of character lists. -/
def charListLt : List Char → List Char → Bool
  | [], [] => false
  | [], _ :: _ => true
  | _ :: _, [] => false
  | a :: as, b :: bs =>
    if a < b then true else if b < a then false else charListLt as bs

/-- Model of `a.localeCompare(b) < 0`: code-point lexicographic order (the
default-locale collation on the ASCII data this program meets). -/
def jsStrLt (a b : String) : Bool :=
  charListLt a.data b.data

/-- The car-number comparator of `sortAndResolveDuplicatePills` as a strict
"comes before" test (`comparator(a,b) < 0`): numeric when both sides have
digits, otherwise the `localeCompare` fallback. -/
def carNumLt (a b : String) : Bool :=
  match carNumVal a, carNumVal b with
  | some x, some y => decide (x < y)
  | _, _ => jsStrLt a b

/-! ## Stable sort (model of `Array.prototype.sort`) -/

/-- Insert `x` into `acc` directly before the first element `y` with
`lt x y = true`; used by `stableSort`. -/
def insertBy {α : Type _} (lt : α → α → Bool) (x : α) : List α → List α
  | [] => [x]
  | y :: ys => if lt x y then x :: y :: ys else y :: insertBy lt x ys

/-- Stable insertion sort: elements are taken left to right and each is placed
after every earlier element it does not strictly precede — the order produced
by the (stable) JavaScript `Array.prototype.sort` for a consistent comparator,
with `lt a b` meaning `comparator(a, b) < 0`. -/
def stableSort {α : Type _} (lt : α → α → Bool) (xs : List α) : List α :=
  xs.foldl (fun acc x => insertBy lt x acc) []

/-! ## The parser (`parseRawData`) -/

/-- The warning pushed for a non-integer pill field. -/
def invalidPillMsg (lineCounter : Nat) (raw : String) : String :=
  s!"Line {lineCounter}: Invalid pill number \"{raw}\". Using order received."

/-- Handling of a pill field (`parts[2]`/`parts[3]`): empty after trimming
means "absent"; a `parseInt` failure records a warning and keeps the row. -/
def parsePill (lineCounter : Nat) (field : String) : Option Int × List String :=
  let f := jsTrim field
  if f = "" then (none, [])
  else
    match jsParseInt f with
    | some v => (some v, [])
    | none => (none, [invalidPillMsg lineCounter f])

/-- Body of the per-line loop of `parseRawData` for one non-blank trimmed
line: field-count dispatch, pill parsing, required-field validation. -/
def parseLine (classObj : RaceClass) (lineCounter : Nat) (line : String) :
    List Driver × List String :=
  let parts := jsSplit line '\t'
  if parts.length < 2 then
    ([], [s!"Line {lineCounter}: Not enough data (expected at least 2 fields, got {parts.length})"])
  else
    let fields :=
      if 4 ≤ parts.length then
        let lastName := jsTrim (parts.getD 1 "")
        let firstName := jsTrim (parts.getD 2 "")
        (jsTrim (parts.getD 0 ""), jsTrim (firstName ++ " " ++ lastName),
          parsePill lineCounter (parts.getD 3 ""))
      else if parts.length = 3 then
        (jsTrim (parts.getD 0 ""), jsTrim (parts.getD 1 ""),
          parsePill lineCounter (parts.getD 2 ""))
      else if parts.length = 2 then
        (jsTrim (parts.getD 0 ""), jsTrim (parts.getD 1 ""), (none, []))
      else ("", "", (none, []))
    if fields.1 = "" ∨ fields.2.1 = "" then
      (([] : List Driver),
        fields.2.2.2 ++ [s!"Line {lineCounter}: Missing required fields (car number and driver name)"])
    else
      ([{ carNumber := fields.1, driverName := fields.2.1,
          pillNumber := (fields.2.2.1).getD MAX_SAFE_INTEGER,
          className := classObj.name, classId := classObj.id }], fields.2.2.2)

/-- The parser loop: `lineCounter` advances on every line (blank ones
included); blank lines are skipped silently. -/
def parseLines (classObj : RaceClass) : Nat → List String → List Driver × List String
  | _, [] => ([], [])
  | lineCounter, l :: ls =>
    let line := jsTrim l
    let rest := parseLines classObj (lineCounter + 1) ls
    if line = "" then rest
    else
      let r := parseLine classObj lineCounter line
      (r.1 ++ rest.1, r.2 ++ rest.2)

/-- Model of `parseRawData` (`src/unnamed/part_011`, lines 6–102): precondition checks,
then the per-line loop over the trimmed input split at newlines. -/
def parseRawData (rawData : String) (classes : List RaceClass)
    (selectedClassId : String) : List Driver × List String :=
  if jsTrim rawData = "" then ([], ["No data provided"])
  else if classes.length = 0 then ([], ["No classes available"])
  else
    match classes.find? fun c => decide (c.id = selectedClassId) with
    | none => ([], ["Selected class not found"])
    | some classObj => parseLines classObj 1 (jsSplit (jsTrim rawData) '\n')

/-! ## The resolver (`sortAndResolveDuplicatePills`) -/

/-- A driver together with the `originalOrder` tag the resolver attaches
before partitioning (`drivers.map((driver, index) => ...)`). -/
structure TaggedDriver where
  d : Driver
  originalOrder : Nat
deriving Repr, DecidableEq

/-- Tag each driver with its index, starting at `i`. -/
def tagFrom (i : Nat) : List Driver → List TaggedDriver
  | [] => []
  | d :: ds => ⟨d, i⟩ :: tagFrom (i + 1) ds

/-- The duplicate-branch comparator: pill number ascending, ties broken by
original input order (`comparator(a,b) < 0`). -/
def pillOrderLt (a b : TaggedDriver) : Bool :=
  if a.d.pillNumber ≠ b.d.pillNumber then decide (a.d.pillNumber < b.d.pillNumber)
  else decide (a.originalOrder < b.originalOrder)

/-- The plain pill-number comparator of the no-duplicates branch. -/
def pillLt (a b : TaggedDriver) : Bool :=
  decide (a.d.pillNumber < b.d.pillNumber)

/-- The car-number comparator lifted to tagged drivers. -/
def carLt (a b : TaggedDriver) : Bool :=
  carNumLt a.d.carNumber b.d.carNumber

/-- The `withPills` partition: the drivers whose pill number is not the absent-sentinel, in
input order. -/
def withPillsOf (drivers : List Driver) : List TaggedDriver :=
  (tagFrom 0 drivers).filter fun t => !decide (t.d.pillNumber = MAX_SAFE_INTEGER)

/-- The `withoutPills` partition: the drivers carrying the absent-sentinel, in input order. -/
def withoutPillsOf (drivers : List Driver) : List TaggedDriver :=
  (tagFrom 0 drivers).filter fun t => decide (t.d.pillNumber = MAX_SAFE_INTEGER)

/-- The `while (assignedPills.has(currentPill)) currentPill++` search, with
explicit fuel; `fuel` exceeding the number of assigned slots `≥ p` guarantees
the result is unassigned. -/
def nextFreeAux (assigned : List Int) : Nat → Int → Int
  | 0, p => p
  | fuel + 1, p => if p ∈ assigned then nextFreeAux assigned fuel (p + 1) else p

/-- First integer `≥ p` not yet in `assigned`. -/
def nextFree (assigned : List Int) (p : Int) : Int :=
  nextFreeAux assigned (assigned.length + 1) p

/-- The duplicate-resolution loop: walk the sorted `withPills`, give each
driver the next unassigned integer at or above its own pill number, and record
it in the assigned set (`Set.add` modelled by guarded cons).  Each output
driver is a fresh record (`{...driver, pillNumber: currentPill}`). -/
def resolveLoop : List TaggedDriver → List Int → List Driver
  | [], _ => []
  | t :: ts, assigned =>
    { t.d with pillNumber := nextFree assigned t.d.pillNumber } ::
      resolveLoop ts
        (if nextFree assigned t.d.pillNumber ∈ assigned then assigned
         else nextFree assigned t.d.pillNumber :: assigned)

/-- Model of `sortAndResolveDuplicatePills` (`src/unnamed/part_011`, lines 139–247).
`hasDuplicates` is `¬ Nodup` of the `withPills` pill numbers (all reachable
pill numbers are integers, so `Math.floor` is the identity).  In the
duplicates branch the in-place sort of `withoutPills` in the source runs *after*
`withoutPills` has been spread into `finalSortedDrivers`, so the returned
array keeps `withoutPills` in partition (input) order; the embedding returns
exactly what the function returns. -/
def sortAndResolveDuplicatePills (drivers : List Driver) : List Driver :=
  if ((withPillsOf drivers).map fun t => t.d.pillNumber).Nodup then
    ((stableSort pillLt (withPillsOf drivers)).map fun t => t.d) ++
      ((stableSort carLt (withoutPillsOf drivers)).map fun t => t.d)
  else
    resolveLoop (stableSort pillOrderLt (withPillsOf drivers)) [] ++
      ((withoutPillsOf drivers).map fun t => t.d)

/-! ## Grouping, the lineup store and class removal -/

/-- Distinct class ids in order of first appearance (the iteration order of
the JavaScript grouping object for the ids this program generates). -/
def classIdsOf (drivers : List Driver) : List String :=
  drivers.foldl (fun ks d => if d.classId ∈ ks then ks else ks ++ [d.classId]) []

/-- Model of `processLineups` (`src/unnamed/part_011`, lines 107–133): group by class,
resolve each group. -/
def processLineups (drivers : List Driver) (classes : List RaceClass) :
    List ProcessedLineup :=
  (classIdsOf drivers).map fun cid =>
    { classId := cid
      className := (((classes.find? fun c => decide (c.id = cid)).map
        fun c => c.name).getD "Unknown Class")
      drivers := sortAndResolveDuplicatePills
        (drivers.filter fun d => decide (d.classId = cid)) }

/-- The store merge of `AppContext.processLineups` (`AppContext.tsx`,
lines 188–194): drop every existing lineup whose class also appears in the
incoming batch, then append the batch. -/
def mergeLineups (prev incoming : List ProcessedLineup) : List ProcessedLineup :=
  (prev.filter fun l => !(incoming.any fun pl => decide (pl.classId = l.classId))) ++ incoming

/-- The slice of provider state the class actions touch. -/
structure AppState where
  classes : List RaceClass
  lineups : List ProcessedLineup
deriving Repr, DecidableEq

/-- Model of `removeClass` (`AppContext.tsx`, lines 120–134): no-op when the id is
unknown, otherwise filter the class out of `classes` and cascade-delete its
lineup. -/
def removeClass (s : AppState) (classId : String) : AppState :=
  match s.classes.find? fun c => decide (c.id = classId) with
  | none => s
  | some _ =>
    { classes := s.classes.filter fun c => !decide (c.id = classId)
      lineups := s.lineups.filter fun l => !decide (l.classId = classId) }

/-! ## Spec-modelled comparator (for the refinement claim about step 4) -/

/-- First maximal digit run of a character list (skipping to the first digit). -/
def firstDigitRun : List Char → List Char
  | [] => []
  | c :: cs => if c.isDigit then c :: leadingDigits cs else firstDigitRun cs

/-- Modelled from the spec: the value §4.2 step 4 says the comparator
extracts — "extract the first maximal digit run", parsed as an integer. -/
def firstDigitRunVal (s : String) : Option Nat :=
  match firstDigitRun s.data with
  | [] => none
  | ds => some (digitsToNat ds)

/-- Modelled from the spec: the §4.2 step 4 comparator as written in the spec
(first maximal digit run, numeric when both parse, else lexicographic). -/
def specCarNumLt (a b : String) : Bool :=
  match firstDigitRunVal a, firstDigitRunVal b with
  | some x, some y => decide (x < y)
  | _, _ => jsStrLt a b

/-! ## General lemmas about the stable sort -/

theorem insertBy_perm {α : Type _} (lt : α → α → Bool) (x : α) (acc : List α) :
    (insertBy lt x acc).Perm (x :: acc) := by
  induction acc with
  | nil => simp [insertBy]
  | cons y ys ih =>
    simp only [insertBy]
    split
    · exact List.Perm.refl _
    · exact (ih.cons y).trans (List.Perm.swap x y ys)

theorem foldl_insertBy_perm {α : Type _} (lt : α → α → Bool) (xs : List α) :
    ∀ acc : List α, (xs.foldl (fun a x => insertBy lt x a) acc).Perm (acc ++ xs) := by
  induction xs with
  | nil => intro acc; simp
  | cons x xs ih =>
    intro acc
    rw [List.foldl_cons]
    refine (ih (insertBy lt x acc)).trans ?_
    refine (List.Perm.append_right xs (insertBy_perm lt x acc)).trans ?_
    simpa using List.perm_middle.symm

theorem stableSort_perm {α : Type _} (lt : α → α → Bool) (xs : List α) :
    (stableSort lt xs).Perm xs := by
  simpa [stableSort] using foldl_insertBy_perm lt xs []

theorem stableSort_length {α : Type _} (lt : α → α → Bool) (xs : List α) :
    (stableSort lt xs).length = xs.length :=
  (stableSort_perm lt xs).length_eq

theorem insertBy_eq_append {α : Type _} (lt : α → α → Bool) (x : α) (acc : List α)
    (h : ∀ y ∈ acc, lt x y = false) :
    insertBy lt x acc = acc ++ [x] := by
  induction acc with
  | nil => rfl
  | cons y ys ih =>
    have hy : lt x y = false := h y (List.mem_cons_self y ys)
    simp only [insertBy, hy, Bool.false_eq_true, if_false, List.cons_append,
      List.cons.injEq, true_and]
    exact ih fun z hz => h z (List.mem_cons_of_mem y hz)

theorem foldl_insertBy_sorted {α : Type _} (lt : α → α → Bool) (xs : List α) :
    ∀ acc : List α, (∀ x ∈ xs, ∀ y ∈ acc, lt x y = false) →
      xs.Pairwise (fun a b => lt b a = false) →
      xs.foldl (fun a x => insertBy lt x a) acc = acc ++ xs := by
  induction xs with
  | nil => intro acc _ _; simp
  | cons x xs ih =>
    intro acc hacc hxs
    rw [List.foldl_cons, insertBy_eq_append lt x acc (hacc x (List.mem_cons_self x xs))]
    rw [ih (acc ++ [x]) ?_ (List.pairwise_cons.mp hxs).2]
    · simp
    · intro z hz y hy
      rcases List.mem_append.mp hy with hmem | hmem
      · exact hacc z (List.mem_cons_of_mem x hz) y hmem
      · have hyx : y = x := by simpa using hmem
        subst hyx
        exact (List.pairwise_cons.mp hxs).1 z hz

theorem stableSort_eq_self {α : Type _} (lt : α → α → Bool) (xs : List α)
    (h : xs.Pairwise fun a b => lt b a = false) :
    stableSort lt xs = xs := by
  simpa [stableSort] using foldl_insertBy_sorted lt xs [] (by simp) h

/-! ## Lemmas about tagging and partitioning -/

theorem tagFrom_map {β : Type _} (f : Driver → β) (i : Nat) (l : List Driver) :
    ((tagFrom i l).map fun t => f t.d) = l.map f := by
  induction l generalizing i with
  | nil => rfl
  | cons d ds ih => simp [tagFrom, ih]

theorem tagFrom_proj (i : Nat) (l : List Driver) :
    ((tagFrom i l).map fun t => t.d) = l := by
  simpa using tagFrom_map id i l

theorem tagFrom_map_pill (i : Nat) (l : List Driver) :
    ((tagFrom i l).map fun t => t.d.pillNumber) = l.map fun d => d.pillNumber :=
  tagFrom_map (fun d => d.pillNumber) i l

theorem tagFrom_mem {t : TaggedDriver} {i : Nat} {l : List Driver}
    (h : t ∈ tagFrom i l) : t.d ∈ l := by
  induction l generalizing i with
  | nil => simp [tagFrom] at h
  | cons d ds ih =>
    simp only [tagFrom, List.mem_cons] at h
    rcases h with h | h
    · subst h; simp
    · exact List.mem_cons_of_mem d (ih h)

theorem tagFrom_append (i : Nat) (l₁ l₂ : List Driver) :
    tagFrom i (l₁ ++ l₂) = tagFrom i l₁ ++ tagFrom (i + l₁.length) l₂ := by
  induction l₁ generalizing i with
  | nil => simp [tagFrom]
  | cons d ds ih =>
    have harith : i + 1 + ds.length = i + (ds.length + 1) := by omega
    simp [tagFrom, ih (i + 1), harith]

theorem tagFrom_pairwise {R : Driver → Driver → Prop} {l : List Driver}
    (i : Nat) (h : l.Pairwise R) :
    (tagFrom i l).Pairwise fun t u => R t.d u.d := by
  induction l generalizing i with
  | nil => simp [tagFrom]
  | cons d ds ih =>
    rcases List.pairwise_cons.mp h with ⟨h1, h2⟩
    refine List.pairwise_cons.mpr ⟨?_, ih (i + 1) h2⟩
    intro u hu
    exact h1 u.d (tagFrom_mem hu)

theorem tagFrom_filter_map (q : Driver → Bool) (i : Nat) (l : List Driver) :
    (((tagFrom i l).filter fun t => q t.d).map fun t => t.d) = l.filter q := by
  induction l generalizing i with
  | nil => rfl
  | cons d ds ih =>
    by_cases h : q d
    · simp [tagFrom, List.filter_cons, h, ih (i + 1)]
    · simp [tagFrom, List.filter_cons, h, ih (i + 1)]

theorem withPillsOf_proj (drivers : List Driver) :
    ((withPillsOf drivers).map fun t => t.d) =
      drivers.filter fun d => !decide (d.pillNumber = MAX_SAFE_INTEGER) :=
  tagFrom_filter_map (fun d => !decide (d.pillNumber = MAX_SAFE_INTEGER)) 0 drivers

theorem withoutPillsOf_pill {t : TaggedDriver} {drivers : List Driver}
    (h : t ∈ withoutPillsOf drivers) : t.d.pillNumber = MAX_SAFE_INTEGER := by
  have h2 := (List.mem_filter.mp h).2
  simpa using h2

/-! ## Lemmas about the duplicate-resolution loop -/

theorem filter_ge_length_decrease {assigned : List Int} {p : Int} (hp : p ∈ assigned) :
    (assigned.filter fun q => decide (p + 1 ≤ q)).length <
      (assigned.filter fun q => decide (p ≤ q)).length := by
  have hsub : (assigned.filter fun q => decide (p + 1 ≤ q)).Sublist
      (assigned.filter fun q => decide (p ≤ q)) :=
    List.monotone_filter_right assigned fun a ha => by
      simp only [decide_eq_true_eq] at ha ⊢
      omega
  rcases Nat.lt_or_ge ((assigned.filter fun q => decide (p + 1 ≤ q)).length)
      ((assigned.filter fun q => decide (p ≤ q)).length) with hlt | hge
  · exact hlt
  · exfalso
    have heq : (assigned.filter fun q => decide (p + 1 ≤ q)) =
        (assigned.filter fun q => decide (p ≤ q)) :=
      hsub.eq_of_length (Nat.le_antisymm hsub.length_le hge)
    have hmem : p ∈ assigned.filter fun q => decide (p ≤ q) :=
      List.mem_filter.mpr ⟨hp, by simp⟩
    rw [← heq] at hmem
    have hle := (List.mem_filter.mp hmem).2
    simp only [decide_eq_true_eq] at hle
    omega

theorem nextFreeAux_not_mem (assigned : List Int) :
    ∀ (fuel : Nat) (p : Int),
      (assigned.filter fun q => decide (p ≤ q)).length < fuel →
      nextFreeAux assigned fuel p ∉ assigned := by
  intro fuel
  induction fuel with
  | zero => intro p h; omega
  | succ fuel ih =>
    intro p h
    by_cases hp : p ∈ assigned
    · simp only [nextFreeAux, if_pos hp]
      exact ih (p + 1) (by have := filter_ge_length_decrease hp; omega)
    · simp only [nextFreeAux, if_neg hp]
      exact hp

theorem nextFree_not_mem (assigned : List Int) (p : Int) :
    nextFree assigned p ∉ assigned :=
  nextFreeAux_not_mem assigned (assigned.length + 1) p
    (Nat.lt_succ_of_le (List.length_filter_le _ assigned))

theorem resolveLoop_length (ts : List TaggedDriver) :
    ∀ assigned : List Int, (resolveLoop ts assigned).length = ts.length := by
  induction ts with
  | nil => intro _; rfl
  | cons t ts ih => intro assigned; simp [resolveLoop, ih]

theorem resolveLoop_fresh (ts : List TaggedDriver) :
    ∀ assigned : List Int,
      (((resolveLoop ts assigned).map fun d => d.pillNumber).Nodup) ∧
      ∀ q ∈ (resolveLoop ts assigned).map fun d => d.pillNumber, q ∉ assigned := by
  induction ts with
  | nil => intro _; simp [resolveLoop]
  | cons t ts ih =>
    intro assigned
    have hp : nextFree assigned t.d.pillNumber ∉ assigned := nextFree_not_mem _ _
    have hite : (if nextFree assigned t.d.pillNumber ∈ assigned then assigned
        else nextFree assigned t.d.pillNumber :: assigned) =
        nextFree assigned t.d.pillNumber :: assigned := if_neg hp
    obtain ⟨ihn, ihf⟩ := ih (nextFree assigned t.d.pillNumber :: assigned)
    constructor
    · simp only [resolveLoop, hite, List.map_cons, List.nodup_cons]
      refine ⟨fun hmem => ?_, ihn⟩
      exact (ihf _ hmem) (List.mem_cons_self _ _)
    · intro q hq
      simp only [resolveLoop, hite, List.map_cons, List.mem_cons] at hq
      rcases hq with hq | hq
    
      · intro hmem
        rw [hq] at hmem
        exact hp hmem
      · intro hmem
        exact (ihf q hq) (List.mem_cons_of_mem _ hmem)

/-! ## Asymmetry of the car-number comparator -/

theorem charListLt_asymm :
    ∀ {as bs : List Char}, charListLt as bs = true → charListLt bs as = false := by
  intro as
  induction as with
  | nil =>
    intro bs h
    cases bs with
    | nil => simp [charListLt] at h
    | cons b bs => simp [charListLt]
  | cons a as ih =>
    intro bs h
    cases bs with
    | nil => simp [charListLt] at h
    | cons b bs =>
      simp only [charListLt] at h ⊢
      by_cases hab : a < b
      · have hba : ¬ b < a := lt_asymm hab
        rw [if_neg hba, if_pos hab]
      · rw [if_neg hab] at h
        by_cases hba : b < a
        · rw [if_pos hba] at h
          simp at h
        · rw [if_neg hba] at h
          rw [if_neg hba, if_neg hab]
          exact ih h

theorem carNumLt_asymm (a b : String) (h : carNumLt a b = true) :
    carNumLt b a = false := by
  unfold carNumLt at h ⊢
  rcases ha : carNumVal a with _ | x
  · rcases hb : carNumVal b with _ | y
    · simp only [ha, hb] at h ⊢
      exact charListLt_asymm h
    · simp only [ha, hb] at h ⊢
      exact charListLt_asymm h
  · rcases hb : carNumVal b with _ | y
    · simp only [ha, hb] at h ⊢
      exact charListLt_asymm h
    · simp only [ha, hb, decide_eq_true_eq] at h
      simp only [ha, hb, decide_eq_false_iff_not]
      omega

/-! ## Claim C1 -/

/-- C1 (counterexample): two entrants that entered without a draw number both
leave the resolver carrying the same effective pill number (the sentinel
`MAX_SAFE_INTEGER`), so effective draw numbers are *not* pairwise distinct
once entrants without a draw number are included. -/
theorem c1_counterexample_shared_sentinel :
    ¬ (((sortAndResolveDuplicatePills
        [⟨"7", "Ann", MAX_SAFE_INTEGER, "Hobby", "c1"⟩,
         ⟨"9", "Bo", MAX_SAFE_INTEGER, "Hobby", "c1"⟩]).map
          fun d => d.pillNumber).Nodup) := by decide

/-- C1 (amended): in every resolver output the entrants that entered *with* a
draw number form a prefix whose effective pill numbers are pairwise distinct;
the remaining entrants all carry the absent-draw sentinel `MAX_SAFE_INTEGER`
(and are therefore excluded from the uniqueness invariant). -/
theorem c1_resolved_pills_nodup (drivers : List Driver) :
    ∃ A B : List Driver,
      sortAndResolveDuplicatePills drivers = A ++ B ∧
      ((A.map fun d => d.pillNumber).Nodup) ∧
      (∀ d ∈ B, d.pillNumber = MAX_SAFE_INTEGER) ∧
      A.length =
        (drivers.filter fun d => !decide (d.pillNumber = MAX_SAFE_INTEGER)).length := by
  by_cases h : ((withPillsOf drivers).map fun t => t.d.pillNumber).Nodup
  · refine ⟨(stableSort pillLt (withPillsOf drivers)).map fun t => t.d,
      (stableSort carLt (withoutPillsOf drivers)).map fun t => t.d,
      ?_, ?_, ?_, ?_⟩
    · simp [sortAndResolveDuplicatePills, h]
    · have hperm := (stableSort_perm pillLt (withPillsOf drivers)).map
        fun t => t.d.pillNumber
      have hmm : (((stableSort pillLt (withPillsOf drivers)).map fun t => t.d).map
          fun d => d.pillNumber) =
          (stableSort pillLt (withPillsOf drivers)).map fun t => t.d.pillNumber := by
        simp [List.map_map]
      rw [hmm]
      exact hperm.nodup_iff.mpr h
    · intro d hd
      rcases List.mem_map.mp hd with ⟨t, ht, rfl⟩
      exact withoutPillsOf_pill ((stableSort_perm carLt _).mem_iff.mp ht)
    · rw [List.length_map, stableSort_length]
      have hlen := congrArg List.length (withPillsOf_proj drivers)
      simpa using hlen
  · refine ⟨resolveLoop (stableSort pillOrderLt (withPillsOf drivers)) [],
      (withoutPillsOf drivers).map fun t => t.d, ?_, ?_, ?_, ?_⟩
    · simp [sortAndResolveDuplicatePills, h]
    · exact (resolveLoop_fresh _ []).1
    · intro d hd
      rcases List.mem_map.mp hd with ⟨t, ht, rfl⟩
      exact withoutPillsOf_pill ht
    · rw [resolveLoop_length, stableSort_length]
      have hlen := congrArg List.length (withPillsOf_proj drivers)
      simpa using hlen

/-! ## Claim C2 -/

/-- C2: for the entrants `("7","Ann",5)`, `("9","Bo",5)`, `("3","Cy",5)` in
that input order, resolution keeps the input order (ties on equal draw numbers
are broken by original order, not by car number — car order would be Cy, Ann,
Bo) and advances each colliding entrant to the next unassigned integer at or
above its own value: Ann keeps 5, Bo gets 6, Cy gets 7. -/
theorem c2_duplicate_resolution_order :
    sortAndResolveDuplicatePills
      [⟨"7", "Ann", 5, "Hobby", "c1"⟩, ⟨"9", "Bo", 5, "Hobby", "c1"⟩,
       ⟨"3", "Cy", 5, "Hobby", "c1"⟩] =
      [⟨"7", "Ann", 5, "Hobby", "c1"⟩, ⟨"9", "Bo", 6, "Hobby", "c1"⟩,
       ⟨"3", "Cy", 7, "Hobby", "c1"⟩] := by decide

/-! ## Claim C3 -/

/-- C3 (code divergence): when duplicate draw numbers are present among the
`withDraw` entrants, the `withoutDraw` entrants leave the resolver in their
original input order —cars "12", "5" stay in that order although the
car-number comparator orders "5" before "12".  The source sorts
`withoutPills` in place only *after* spreading it into the result array, so
the sort never affects the returned lineup. -/
theorem c3_without_draw_not_sorted_on_dup :
    sortAndResolveDuplicatePills
      [⟨"b", "X", 3, "Hobby", "c1"⟩, ⟨"b2", "Y", 3, "Hobby", "c1"⟩,
       ⟨"12", "N", MAX_SAFE_INTEGER, "Hobby", "c1"⟩,
       ⟨"5", "M", MAX_SAFE_INTEGER, "Hobby", "c1"⟩] =
      [⟨"b", "X", 3, "Hobby", "c1"⟩, ⟨"b2", "Y", 4, "Hobby", "c1"⟩,
       ⟨"12", "N", MAX_SAFE_INTEGER, "Hobby", "c1"⟩,
       ⟨"5", "M", MAX_SAFE_INTEGER, "Hobby", "c1"⟩] ∧
    carNumLt "5" "12" = true := by decide

/-! ## Claim C4 -/

/-- C4 (counterexample): the car-number ordering of the resolver is *not* the
first-maximal-digit-run comparator written in the spec, and it is not
transitive.  The comparator in the code parses the concatenation of all digit
runs, so "1a2"
compares as 12 and is placed after "9", while the claimed first-run
comparator (1 versus 9) would place "1a2" first; and `carNumLt` admits the
cycle "b2" ≺ "a5" ≺ "ab" with "b2" ⊀ "ab". -/
theorem c4_counterexample_digit_runs :
    sortAndResolveDuplicatePills
      [⟨"1a2", "P", MAX_SAFE_INTEGER, "Hobby", "c1"⟩,
       ⟨"9", "Q", MAX_SAFE_INTEGER, "Hobby", "c1"⟩] =
      [⟨"9", "Q", MAX_SAFE_INTEGER, "Hobby", "c1"⟩,
       ⟨"1a2", "P", MAX_SAFE_INTEGER, "Hobby", "c1"⟩] ∧
    specCarNumLt "1a2" "9" = true ∧
    carNumLt "b2" "a5" = true ∧ carNumLt "a5" "ab" = true ∧
    carNumLt "b2" "ab" = false := by decide

/-- C4 (amended): the comparator deletes every non-digit character and parses
the concatenation of all digit runs; when both sides parse it compares
numerically, otherwise it falls back to `localeCompare` on the raw car number
(modelled as code-point order).  Car numbers ["12","5","9a"] are ordered
5, 9a, 12, and the comparison is defined and asymmetric on every pair. -/
theorem c4_comparator_behaviour :
    (sortAndResolveDuplicatePills
      [⟨"12", "N", MAX_SAFE_INTEGER, "Hobby", "c1"⟩,
       ⟨"5", "M", MAX_SAFE_INTEGER, "Hobby", "c1"⟩,
       ⟨"9a", "K", MAX_SAFE_INTEGER, "Hobby", "c1"⟩] =
      [⟨"5", "M", MAX_SAFE_INTEGER, "Hobby", "c1"⟩,
       ⟨"9a", "K", MAX_SAFE_INTEGER, "Hobby", "c1"⟩,
       ⟨"12", "N", MAX_SAFE_INTEGER, "Hobby", "c1"⟩]) ∧
    ∀ a b : String, carNumLt a b = true → carNumLt b a = false := by
  exact ⟨by decide, carNumLt_asymm⟩

/-- C4 witness: the amended comparator claim applied at "5" versus "12". -/
theorem c4_comparator_behaviour_witness :
    carNumLt "5" "12" = true ∧ carNumLt "12" "5" = false :=
  ⟨by decide, c4_comparator_behaviour.2 "5" "12" (by decide)⟩

/-! ## Claim C5 -/

/-- C5: resolution is idempotent on already-resolved input — a sequence with
no duplicate draw numbers, consisting of the draw-number entrants sorted
ascending followed by the sentinel entrants sorted by the car-number
comparator, passes through the resolver unchanged. -/
theorem c5_resolution_idempotent (A B : List Driver)
    (hA : ∀ d ∈ A, d.pillNumber ≠ MAX_SAFE_INTEGER)
    (hB : ∀ d ∈ B, d.pillNumber = MAX_SAFE_INTEGER)
    (hnd : (A.map fun d => d.pillNumber).Nodup)
    (hsortA : A.Pairwise fun a b => a.pillNumber ≤ b.pillNumber)
    (hsortB : B.Pairwise fun a b => carNumLt b.carNumber a.carNumber = false) :
    sortAndResolveDuplicatePills (A ++ B) = A ++ B := by
  have htag : tagFrom 0 (A ++ B) = tagFrom 0 A ++ tagFrom A.length B := by
    simpa using tagFrom_append 0 A B
  have hwp : withPillsOf (A ++ B) = tagFrom 0 A := by
    unfold withPillsOf
    rw [htag, List.filter_append]
    have h1 : ((tagFrom 0 A).filter fun t =>
        !decide (t.d.pillNumber = MAX_SAFE_INTEGER)) = tagFrom 0 A :=
      List.filter_eq_self.mpr fun t ht => by simp [hA t.d (tagFrom_mem ht)]
    have h2 : ((tagFrom A.length B).filter fun t =>
        !decide (t.d.pillNumber = MAX_SAFE_INTEGER)) = [] :=
      List.filter_eq_nil_iff.mpr fun t ht => by simp [hB t.d (tagFrom_mem ht)]
    rw [h1, h2, List.append_nil]
  have hwo : withoutPillsOf (A ++ B) = tagFrom A.length B := by
    unfold withoutPillsOf
    rw [htag, List.filter_append]
    have h1 : ((tagFrom 0 A).filter fun t =>
        decide (t.d.pillNumber = MAX_SAFE_INTEGER)) = [] :=
      List.filter_eq_nil_iff.mpr fun t ht => by simp [hA t.d (tagFrom_mem ht)]
    have h2 : ((tagFrom A.length B).filter fun t =>
        decide (t.d.pillNumber = MAX_SAFE_INTEGER)) = tagFrom A.length B :=
      List.filter_eq_self.mpr fun t ht => by simp [hB t.d (tagFrom_mem ht)]
    rw [h1, h2, List.nil_append]
  have hpills : ((tagFrom 0 A).map fun t => t.d.pillNumber).Nodup := by
    rw [tagFrom_map_pill]
    exact hnd
  have hsA : (tagFrom 0 A).Pairwise fun t u => pillLt u t = false := by
    refine (tagFrom_pairwise 0 hsortA).imp fun h => ?_
    simp only [pillLt, decide_eq_false_iff_not]
    omega
  have hsB : (tagFrom A.length B).Pairwise fun t u => carLt u t = false := by
    refine (tagFrom_pairwise A.length hsortB).imp fun h => ?_
    exact h
  unfold sortAndResolveDuplicatePills
  rw [hwp, hwo, if_pos hpills, stableSort_eq_self _ _ hsA, stableSort_eq_self _ _ hsB,
    tagFrom_proj, tagFrom_proj]

/-- C5 witness: a concrete already-resolved sequence is a fixed point. -/
theorem c5_resolution_idempotent_witness :
    sortAndResolveDuplicatePills
      ([⟨"3", "Bo", 1, "Hobby", "c1"⟩, ⟨"7", "Ann", 4, "Hobby", "c1"⟩] ++
        [⟨"5", "M", MAX_SAFE_INTEGER, "Hobby", "c1"⟩,
         ⟨"12", "N", MAX_SAFE_INTEGER, "Hobby", "c1"⟩]) =
      [⟨"3", "Bo", 1, "Hobby", "c1"⟩, ⟨"7", "Ann", 4, "Hobby", "c1"⟩] ++
        [⟨"5", "M", MAX_SAFE_INTEGER, "Hobby", "c1"⟩,
         ⟨"12", "N", MAX_SAFE_INTEGER, "Hobby", "c1"⟩] :=
  c5_resolution_idempotent _ _ (by decide) (by decide) (by decide) (by decide)
    (by decide)

/-! ## Claim C6 -/

/-- C6: the store merge keeps every incoming lineup, carries over unchanged
every existing lineup whose class is absent from the batch, and lets nothing
else survive — an existing lineup whose classId appears in the batch is
replaced entirely, never field-merged; in particular a store holding lineups
for classes A and B merged with a fresh lineup for A yields exactly the old
lineup of B and the fresh one of A. -/
theorem c6_merge_replaces_by_class (prev incoming : List ProcessedLineup) :
    (∀ pl ∈ incoming, pl ∈ mergeLineups prev incoming) ∧
    (∀ l ∈ prev, (∀ pl ∈ incoming, pl.classId ≠ l.classId) →
      l ∈ mergeLineups prev incoming) ∧
    (∀ l ∈ mergeLineups prev incoming,
      l ∈ incoming ∨ (l ∈ prev ∧ ∀ pl ∈ incoming, pl.classId ≠ l.classId)) ∧
    (∀ la lb la' : ProcessedLineup, la'.classId = la.classId →
      la'.classId ≠ lb.classId → mergeLineups [la, lb] [la'] = [lb, la']) := by
  refine ⟨?_, ?_, ?_, ?_⟩
  · intro pl hpl
    exact List.mem_append_right _ hpl
  · intro l hl hno
    refine List.mem_append_left _ (List.mem_filter.mpr ⟨hl, ?_⟩)
    have hany : (incoming.any fun pl => decide (pl.classId = l.classId)) = false := by
      rw [List.any_eq_false]
      intro pl hpl
      simp [hno pl hpl]
    simp [hany]
  · intro l hl
    rcases List.mem_append.mp hl with hl | hl
    · rcases List.mem_filter.mp hl with ⟨hmem, hcond⟩
      refine Or.inr ⟨hmem, ?_⟩
      intro pl hpl
      have hany : (incoming.any fun pl => decide (pl.classId = l.classId)) = false := by
        simpa using hcond
      have := List.any_eq_false.mp hany pl hpl
      simpa using this
    · exact Or.inl hl
  · intro la lb la' h1 h2
    have h3 : la.classId ≠ lb.classId := h1 ▸ h2
    simp [mergeLineups, List.filter_cons, h1, h2, h3]

/-- C6 witness: the fresh lineup for class A is in the merged store. -/
theorem c6_merge_witness :
    (⟨"A", "fresh", []⟩ : ProcessedLineup) ∈
      mergeLineups [⟨"A", "old", []⟩, ⟨"B", "keep", []⟩] [⟨"A", "fresh", []⟩] :=
  (c6_merge_replaces_by_class _ _).1 _ (by decide)

/-! ## Claim C7 -/

/-- C7: after `removeClass` on an existing class id, the lineup store holds no
lineup for that class, and the surviving lineups are exactly the previous ones
for other classes, unchanged and in order. -/
theorem c7_remove_class_cascades (s : AppState) (cid : String)
    (h : ∃ c ∈ s.classes, c.id = cid) :
    (∀ l ∈ (removeClass s cid).lineups, l.classId ≠ cid) ∧
    (removeClass s cid).lineups = s.lineups.filter fun l => !decide (l.classId = cid) := by
  obtain ⟨c, hc, hcid⟩ := h
  rcases hsome : s.classes.find? fun c => decide (c.id = cid) with _ | c0
  · exfalso
    have := List.find?_eq_none.mp hsome c hc
    simp [hcid] at this
  · constructor
    · intro l hl
      have hmem : l ∈ s.lineups.filter fun l => !decide (l.classId = cid) := by
        simpa [removeClass, hsome] using hl
      have hcond := (List.mem_filter.mp hmem).2
      simpa using hcond
    · simp [removeClass, hsome]

/-- C7 witness: removing class "c1" deletes its lineup and keeps the one of "c2". -/
theorem c7_remove_class_witness :
    (removeClass ⟨[⟨"c1", "X"⟩, ⟨"c2", "Y"⟩],
        [⟨"c1", "X", []⟩, ⟨"c2", "Y", []⟩]⟩ "c1").lineups = [⟨"c2", "Y", []⟩] := by
  rw [(c7_remove_class_cascades _ "c1" ⟨⟨"c1", "X"⟩, by decide, by decide⟩).2]
  decide

/-! ## Claim C8 -/

/-- C8: a 3-field line whose third field fails integer parse yields a
warning-level "Invalid pill number" error *and* still produces the entrant,
with its draw number treated as unassigned (the `MAX_SAFE_INTEGER`
sentinel) — the row is not dropped. -/
theorem c8_invalid_pill_keeps_row (rawData line f0 f1 f2 : String)
    (classes : List RaceClass) (selectedClassId : String) (classObj : RaceClass)
    (h1 : (classes.find? fun c => decide (c.id = selectedClassId)) = some classObj)
    (h2 : jsTrim rawData ≠ "")
    (h3 : jsSplit (jsTrim rawData) '\n' = [line])
    (h4 : jsTrim line = line) (h5 : line ≠ "")
    (h6 : jsSplit line '\t' = [f0, f1, f2])
    (h7 : jsTrim f0 ≠ "") (h8 : jsTrim f1 ≠ "")
    (h9 : jsTrim f2 ≠ "") (h10 : jsParseInt (jsTrim f2) = none) :
    parseRawData rawData classes selectedClassId =
      ([{ carNumber := jsTrim f0, driverName := jsTrim f1,
          pillNumber := MAX_SAFE_INTEGER,
          className := classObj.name, classId := classObj.id }],
       [invalidPillMsg 1 (jsTrim f2)]) := by
  have hcls : classes.length ≠ 0 := by
    intro h0
    rw [List.length_eq_zero] at h0
    rw [h0] at h1
    simp [List.find?] at h1
  simp only [parseRawData, if_neg h2, if_neg hcls, h1]
  rw [h3]
  simp only [parseLines, h4, if_neg h5]
  simp only [parseLine, h6]
  simp only [List.length_cons, List.length_nil]
  norm_num
  simp only [parsePill, if_neg h9, h10]
  rw [if_neg ?hcar]
  case hcar => simp [h7, h8]
  simp

/-- C8 witness: the line `7 \t Ann \t abc` keeps its entrant and records the
warning. -/
theorem c8_invalid_pill_keeps_row_witness :
    parseRawData "7\tAnn\tabc" [⟨"c1", "Hobby"⟩] "c1" =
      ([{ carNumber := jsTrim "7", driverName := jsTrim "Ann",
          pillNumber := MAX_SAFE_INTEGER, className := "Hobby", classId := "c1" }],
       [invalidPillMsg 1 (jsTrim "abc")]) :=
  c8_invalid_pill_keeps_row "7\tAnn\tabc" "7\tAnn\tabc" "7" "Ann" "abc"
    [⟨"c1", "Hobby"⟩] "c1" ⟨"c1", "Hobby"⟩ (by decide) (by decide) (by decide)
    (by decide) (by decide) (by decide) (by decide) (by decide) (by decide)
    (by decide)

/-! ## Claim C9 -/

/-- C9: a 5-line batch whose third line has a single field and whose other
lines are valid parses to exactly 4 entrants and exactly one
insufficient-fields error, and that error cites line 3. -/
theorem c9_malformed_line_count :
    (parseRawData "1\tAnn\t2\n2\tBo\t5\nbad\n4\tCy\n5\tDee\t9"
        [⟨"c1", "Hobby"⟩] "c1").1.length = 4 ∧
    (parseRawData "1\tAnn\t2\n2\tBo\t5\nbad\n4\tCy\n5\tDee\t9"
        [⟨"c1", "Hobby"⟩] "c1").2 =
      ["Line 3: Not enough data (expected at least 2 fields, got 1)"] := by
  decide

/-! ## Claim C10 -/

/-- C10: a third field that is literally "9007199254740991" parses to the
absent-draw sentinel, so the line is indistinguishable from the same line
with no third field; the resolver then partitions such an entrant into the
without-draw group and orders it by car number — Ann (car 7) precedes Zed
(car 12) behind the lone drawn entrant, her stated draw number
notwithstanding. -/
theorem c10_sentinel_indistinguishable :
    parseRawData "7\tAnn\t9007199254740991" [⟨"c1", "Hobby"⟩] "c1" =
      parseRawData "7\tAnn" [⟨"c1", "Hobby"⟩] "c1" ∧
    sortAndResolveDuplicatePills
      [⟨"12", "Zed", MAX_SAFE_INTEGER, "Hobby", "c1"⟩,
       ⟨"7", "Ann", 9007199254740991, "Hobby", "c1"⟩,
       ⟨"3", "Bo", 1, "Hobby", "c1"⟩] =
      [⟨"3", "Bo", 1, "Hobby", "c1"⟩,
       ⟨"7", "Ann", 9007199254740991, "Hobby", "c1"⟩,
       ⟨"12", "Zed", MAX_SAFE_INTEGER, "Hobby", "c1"⟩] := by
  decide
